import Mathlib

/-!
# Verification of the SimpleAgent command registry and file commands

Shallow embedding of `src/commands/__init__.py` (the command registry:
`register_command`, `discover_commands`, `print_commands`) and of
`src/commands/file_ops/read_file/__init__.py` (`read_file`), together with
proofs of the registry/discovery/presentation and error-handling properties.

Python dictionaries are modelled as association lists with the usual
first-occurrence semantics (a key occurs at most once in any state built by
the operations below); `defaultdict(list)` is modelled by an association
list whose lookup-or-create inserts an empty bucket.
-/

namespace SimpleAgent

/-- An OpenAI function schema's inner `function` object: the fields that the
registry code reads (`schema["function"]["name"]`,
`schema["function"]["description"]`). -/
structure SchemaFunction where
  name : String
  description : String
deriving DecidableEq, Repr

/-- A command schema `{"type": "function", "function": {...}}`; only the
`function` member is ever read by the registry code. -/
structure Schema where
  function : SchemaFunction
deriving DecidableEq, Repr

/-- A Python callable as the registry sees it: its `__module__` attribute
(used to derive the category) plus an identity tag distinguishing distinct
function objects. -/
structure Func where
  module : String
  fid : Nat
deriving DecidableEq, Repr

/-- Model of `d[k] = v` on a Python dict modelled as an association list: overwrite the
first (and only) binding of `k` in place, or append a new binding at the end.
This matches CPython dict semantics: assignment preserves insertion order and
a new key is appended. -/
def dictSet {α : Type} : List (String × α) → String → α → List (String × α)
  | [], k, v => [(k, v)]
  | (k0, v0) :: rest, k, v =>
      if k0 == k then (k, v) :: rest else (k0, v0) :: dictSet rest k v

/-- Model of `d.get(k)` on a Python dict modelled as an association list. -/
def dictGet {α : Type} : List (String × α) → String → Option α
  | [], _ => none
  | (k0, v0) :: rest, k => if k0 == k then some v0 else dictGet rest k

/-- Model of `d[k].append(v)` on a `defaultdict(list)`: append `v` to the bucket of
`k`, creating the bucket `[v]` if `k` is absent. -/
def ddAppend : List (String × List String) → String → String → List (String × List String)
  | [], k, v => [(k, [v])]
  | (k0, l0) :: rest, k, v =>
      if k0 == k then (k0, l0 ++ [v]) :: rest else (k0, l0) :: ddAppend rest k v

/-- Whether the first list is an initial segment of the second. -/
def leadsList : List Char → List Char → Bool
  | [], _ => true
  | _ :: _, [] => false
  | a :: as, b :: bs => a == b && leadsList as bs

/-- Worker for `pySplit`: scan `cur` left to right, cutting at each
(non-overlapping, leftmost) occurrence of `sep`; `acc` holds the reversed
characters of the piece being built. The fuel, at least `cur.length + 1`,
only makes the recursion structural. -/
def splitCharsAux (sep : List Char) : Nat → List Char → List Char → List (List Char)
  | 0, cur, acc => [acc.reverse ++ cur]
  | _ + 1, [], acc => [acc.reverse]
  | fuel + 1, c :: cs, acc =>
      if leadsList sep (c :: cs) then
        acc.reverse :: splitCharsAux sep fuel (List.drop sep.length (c :: cs)) []
      else
        splitCharsAux sep fuel cs (c :: acc)

/-- Python's `s.split(sep)` for a non-empty separator: the pieces of `s`
between non-overlapping leftmost occurrences of `sep` (so the result has one
more element than there are occurrences). -/
def pySplit (s sep : String) : List String :=
  (splitCharsAux sep.data (s.data.length + 1) s.data []).map String.mk

/-- The three module-level registry collections of `commands/__init__.py`:
`REGISTERED_COMMANDS : Dict[str, Callable]`,
`COMMAND_SCHEMAS : List[Dict[str, Any]]`,
`COMMANDS_BY_CATEGORY : Dict[str, List[str]]` (a `defaultdict(list)`). -/
structure RegistryState where
  REGISTERED_COMMANDS : List (String × Func)
  COMMAND_SCHEMAS : List Schema
  COMMANDS_BY_CATEGORY : List (String × List String)
deriving DecidableEq, Repr

/-- The initial (module-load-time) registry state: all three collections
empty. -/
def emptyState : RegistryState :=
  { REGISTERED_COMMANDS := []
    COMMAND_SCHEMAS := []
    COMMANDS_BY_CATEGORY := [] }

/-- Model of `category = module.split('.')[1] if len(module.split('.')) > 1 else 'misc'`
(line 39 of `commands/__init__.py`). -/
def category_of (module : String) : String :=
  let parts := pySplit module "."
  if h : parts.length > 1 then parts.get ⟨1, h⟩ else "misc"

/-- Model of `register_command(name, func, schema)` (`commands/__init__.py` lines
25–42): unconditionally stores `func` under `name`, appends `schema`, and
appends `name` to the category bucket derived from `func.__module__`. -/
def register_command (s : RegistryState) (name : String) (func : Func)
    (schema : Schema) : RegistryState :=
  { REGISTERED_COMMANDS := dictSet s.REGISTERED_COMMANDS name func
    COMMAND_SCHEMAS := s.COMMAND_SCHEMAS ++ [schema]
    COMMANDS_BY_CATEGORY :=
      ddAppend s.COMMANDS_BY_CATEGORY (category_of func.module) name }

/-- One registration call: the `(name, func, schema)` triple passed to
`register_command`. -/
abbrev Reg := String × Func × Schema

/-- Apply a sequence of `register_command` calls in order. -/
def applyRegs (s : RegistryState) (regs : List Reg) : RegistryState :=
  regs.foldl (fun st r => register_command st r.1 r.2.1 r.2.2) s

/-- Number of schemas in the schema list whose `function.name` equals `n`. -/
def schemaCount (s : RegistryState) (n : String) : Nat :=
  (s.COMMAND_SCHEMAS.filter (fun sch => sch.function.name == n)).length

/-- Total number of occurrences of the name `n` across all category
buckets. -/
def catCount (s : RegistryState) (n : String) : Nat :=
  (s.COMMANDS_BY_CATEGORY.map (fun p => p.2.count n)).sum

/- ### Basic dictionary lemmas -/

theorem dictGet_dictSet {α : Type} (d : List (String × α)) (k m : String) (v : α) :
    dictGet (dictSet d k v) m = if k == m then some v else dictGet d m := by
  induction d with
  | nil =>
      by_cases h : k == m <;> simp [dictSet, dictGet, h]
  | cons p rest ih =>
      obtain ⟨k0, v0⟩ := p
      by_cases h0 : k0 == k
      · have hk : k0 = k := by simpa using h0
        subst hk
        by_cases h : k0 == m <;> simp [dictSet, dictGet, h, h0]
      · by_cases h : k0 == m
        · have hm : k0 = m := by simpa using h
          subst hm
          have hkm : ¬ (k == k0) := by
            intro hc
            exact h0 (by simpa using (by simpa using hc : k = k0).symm)
          simp [dictSet, dictGet, h0, hkm, ih]
        · simp [dictSet, dictGet, h0, h, ih]

theorem catCount_ddAppend (d : List (String × List String)) (k v n : String) :
    (((ddAppend d k v).map (fun p => p.2.count n)).sum : Nat)
      = ((d.map (fun p => p.2.count n)).sum : Nat) + (if v = n then 1 else 0) := by
  induction d with
  | nil =>
      by_cases h : v = n <;> simp [ddAppend, List.count_cons, h]
  | cons p rest ih =>
      obtain ⟨k0, l0⟩ := p
      by_cases h0 : k0 == k
      · by_cases h : v = n
        · simp [ddAppend, h0, List.count_append, List.count_cons, h]
          omega
        · simp [ddAppend, h0, List.count_append, List.count_cons, h]
      · simp [ddAppend, h0, ih]
        omega

/- ### Command discovery (`discover_commands`, lines 45–74) -/

/-- A command module on disk as discovery sees it: its category directory,
its module name, and the effect of importing it — either an exception
(carrying its message) or the list of `register_command` calls the module
performs at import time. -/
structure CommandModule where
  category : String
  name : String
  importResult : Except String (List Reg)
deriving Repr

/-- Model of `gui_commands = [("system_ops", "screenshot")]` (line 55). -/
def gui_commands : List (String × String) := [("system_ops", "screenshot")]

/-- The inner loop of `discover_commands` over the flattened sequence of
`(category, command)` modules: a skipped module is not imported; importing a
module either raises (propagated — there is no `try`/`except` around line 73)
or applies its registrations. -/
def discover_loop (skip_gui_commands : Bool) :
    List CommandModule → RegistryState → Except String RegistryState
  | [], s => .ok s
  | m :: rest, s =>
      if skip_gui_commands && gui_commands.contains (m.category, m.name) then
        discover_loop skip_gui_commands rest s
      else
        match m.importResult with
        | .error e => .error e
        | .ok regs => discover_loop skip_gui_commands rest (applyRegs s regs)

/-- Python `str.lower()`, lowercasing character by character. -/
def strLower (s : String) : String := String.mk (s.data.map Char.toLower)

/-- Model of `discover_commands()` (lines 45–74): `ci_env` models
`os.environ.get("CI", "")`; `skip_gui_commands = ci_env.lower() == "true"`
(line 54). The walk over category packages and their command modules is
flattened into the `modules` list. -/
def discover_commands (ci_env : String) (modules : List CommandModule)
    (s : RegistryState) : Except String RegistryState :=
  let skip_gui_commands := strLower ci_env == "true"
  discover_loop skip_gui_commands modules s

/- ### Registry presentation (`print_commands`, lines 77–108) -/

/-- Python `c * n` string repetition for a single character. -/
def repeatChar (c : Char) (n : Nat) : String := String.mk (List.replicate n c)

/-- Python `f"{cmd:<{width}}"`: left-justify by padding with spaces (no
truncation when `cmd` is longer than `width`). -/
def padRight (cmd : String) (width : Nat) : String :=
  cmd ++ repeatChar ' ' (width - cmd.length)

/-- Model of `category.replace('_', ' ').title()` for the underscore-separated
lowercase category names the registry produces. -/
def titleCase (category : String) : String :=
  String.intercalate " " ((pySplit category "_").map String.capitalize)

/-- Insert a string into a ≤-sorted list of strings. -/
def insertStr (a : String) : List String → List String
  | [] => [a]
  | b :: rest => if a ≤ b then a :: b :: rest else b :: insertStr a rest

/-- Python `sorted` on a list of strings (insertion sort). -/
def sortStrings : List String → List String
  | [] => []
  | a :: rest => insertStr a (sortStrings rest)

/-- Model of `d[k]` on a `defaultdict(list)`: subscripting a missing key inserts an
empty bucket (this is the only way `print_commands` could mutate the
registry, so it is modelled explicitly). Returns the bucket and the possibly
updated dictionary. -/
def ddGetItem (d : List (String × List String)) (k : String) :
    List String × List (String × List String) :=
  match dictGet d k with
  | some l => (l, d)
  | none => ([], d ++ [(k, [])])

/-- Model of `next((schema['function']['description'] for schema in COMMAND_SCHEMAS
if schema['function']['name'] == cmd), "No description available")`
(lines 99–102). -/
def descFor (schemas : List Schema) (cmd : String) : String :=
  match schemas.find? (fun sch => sch.function.name == cmd) with
  | some sch => sch.function.description
  | none => "No description available"

/-- The body of the per-category loop of `print_commands` (lines 90–105),
threading the printed text and the `COMMANDS_BY_CATEGORY` dictionary (whose
`defaultdict` subscript on line 97 is the loop's only potential registry
mutation). -/
def printStep (schemas : List Schema) (max_length : Nat)
    (acc : String × List (String × List String)) (category : String) :
    String × List (String × List String) :=
  let header := "\n" ++ titleCase category ++ " Commands:\n"
    ++ repeatChar '-' 30 ++ "\n"
  let got := ddGetItem acc.2 category
  let lines := (sortStrings got.1).map (fun cmd =>
    "  " ++ padRight cmd (max_length + 2) ++ "  "
      ++ descFor schemas cmd ++ "\n")
  (acc.1 ++ header ++ String.join lines, got.2)

/-- Model of `print_commands()` (lines 77–108). Returns the text printed to stdout —
`none` models an uncaught exception (Python's `max()` raises `ValueError` on
an empty sequence when `COMMANDS_BY_CATEGORY` is truthy but all buckets are
empty) — paired with the final value of `COMMANDS_BY_CATEGORY`, since
`defaultdict` subscripting is the one operation in the function that could
mutate registry state. -/
def print_commands (s : RegistryState) :
    Option String × List (String × List String) :=
  let out0 := "\nAvailable Commands:\n" ++ repeatChar '=' 50 ++ "\n"
  if s.COMMANDS_BY_CATEGORY.isEmpty then
    (some (out0 ++ "No commands registered yet.\n"), s.COMMANDS_BY_CATEGORY)
  else
    let allCmds := (s.COMMANDS_BY_CATEGORY.map (fun p => p.2)).flatten
    match (allCmds.map String.length).max? with
    | none => (none, s.COMMANDS_BY_CATEGORY)
    | some max_length =>
        let cats := sortStrings (s.COMMANDS_BY_CATEGORY.map (fun p => p.1))
        let folded := cats.foldl (printStep s.COMMAND_SCHEMAS max_length)
          ("", s.COMMANDS_BY_CATEGORY)
        let footer := "\n" ++ repeatChar '=' 50 ++ "\nTotal commands: "
          ++ toString s.REGISTERED_COMMANDS.length ++ "\n"
        (some (out0 ++ folded.1 ++ footer), folded.2)

/- ### `read_file` (`file_ops/read_file/__init__.py`, lines 13–60) -/

/-- Model of `os.path.basename`: the component after the last path separator. -/
def basename (p : String) : String :=
  (pySplit p "/").getLastD ""

/-- Model of `os.path.dirname`: everything before the last path separator. -/
def dirname (p : String) : String :=
  let parts := pySplit p "/"
  if parts.length ≤ 1 then "" else String.intercalate "/" parts.dropLast

/-- Model of `os.path.join(a, b)` for a relative second component. -/
def joinPath (a b : String) : String := a ++ "/" ++ b

/-- Python's `sub in s` substring test: `s.split(sub)` has more than one
part exactly when `sub` occurs in `s`. -/
def strContains (s sub : String) : Bool :=
  (pySplit s sub).length != 1

/-- Python's `s.startswith(pre)`, character by character. -/
def strStartsWith (s pre : String) : Bool := leadsList pre.data s.data

/-- The filesystem and configuration environment `read_file` runs against:
`os.path.exists`, `os.path.abspath`, `open(...).read()` (which may raise,
carrying the exception's message), and `core.config.OUTPUT_DIR`. -/
structure FSEnv where
  pathExists : String → Bool
  abspath : String → String
  readText : String → Except String String
  OUTPUT_DIR : String

/-- Model of `read_file(file_path)` (lines 13–60), translated clause by clause:
missing path → `"Error: File not found: " + basename`; then the
`is_within_output` checks (prefix of the absolute output dir, prefix of the
doubled output-dir pattern, or the substring allowlist `["clix", ".git"]`);
a failed check → the security error string; otherwise the file is read, and
any exception is caught and stringified by the outer `except`. -/
def read_file (env : FSEnv) (file_path : String) : String :=
  if env.pathExists file_path = false then
    "Error: File not found: " ++ basename file_path
  else
    let abs_path := env.abspath file_path
    let _base_output_dir := env.abspath (dirname (dirname env.OUTPUT_DIR))
    let check1 := strStartsWith abs_path (env.abspath env.OUTPUT_DIR)
    let output_dir_name := basename (env.abspath env.OUTPUT_DIR)
    let doubled_pattern := joinPath (env.abspath env.OUTPUT_DIR) output_dir_name
    let check2 := strStartsWith abs_path doubled_pattern
    let check3 := strContains abs_path "clix" || strContains abs_path ".git"
    let is_within_output := check1 || check2 || check3
    if is_within_output = false then
      "Security Error: Cannot access files outside the output directory"
    else
      match env.readText file_path with
      | .ok content => content
      | .error e => "Error reading file: " ++ e

/- ### Spec-side definition for the category refinement claim -/

/-- The specification's wording of category derivation: "the segment
immediately following the top-level package name; falls back to `"misc"` if
the path is too shallow". Stated independently of the code's
`category_of` so the two can be compared. -/
def specCategory (modulePath : String) : String :=
  match pySplit modulePath "." with
  | _ :: seg :: _ => seg
  | _ => "misc"

/- ### Helper lemmas -/

theorem dictGet_dictSet_self {α : Type} (d : List (String × α)) (k : String) (v : α) :
    dictGet (dictSet d k v) k = some v := by
  rw [dictGet_dictSet]
  simp

theorem category_of_eq_specCategory (modulePath : String) :
    category_of modulePath = specCategory modulePath := by
  unfold category_of specCategory
  cases hp : pySplit modulePath "." with
  | nil => simp
  | cons a t =>
      cases t with
      | nil => simp
      | cons b t2 => simp

theorem mem_ddAppend_bucket (d : List (String × List String)) (k v : String) :
    v ∈ (dictGet (ddAppend d k v) k).getD [] := by
  induction d with
  | nil => simp [ddAppend, dictGet]
  | cons p rest ih =>
      obtain ⟨k0, l0⟩ := p
      by_cases h0 : k0 == k
      · have hk : k0 = k := by simpa using h0
        subst hk
        simp [ddAppend, dictGet, h0]
      · simp [ddAppend, dictGet, h0, ih]

theorem applyRegs_cons (s : RegistryState) (r : Reg) (rest : List Reg) :
    applyRegs s (r :: rest) = applyRegs (register_command s r.1 r.2.1 r.2.2) rest := rfl

theorem applyRegs_schemas (regs : List Reg) (s : RegistryState) :
    (applyRegs s regs).COMMAND_SCHEMAS
      = s.COMMAND_SCHEMAS ++ regs.map (fun r => r.2.2) := by
  induction regs generalizing s with
  | nil => simp [applyRegs]
  | cons r rest ih =>
      rw [applyRegs_cons, ih]
      simp [register_command]

/- ### Claim theorems -/

/-- Claim C1, counterexample: registering under the name `"read_file"` a
schema whose `function.name` is `"write_file"` does not fail: the mismatched
schema is inserted into `COMMAND_SCHEMAS` and the function is stored under
`"read_file"`, refuting "register fails fast by raising rather than
inserting the mismatched schema into the registry collections". -/
theorem C1_mismatch_registered_counterexample :
    (register_command emptyState "read_file"
        ⟨"commands.file_ops.read_file", 0⟩
        ⟨⟨"write_file", "d"⟩⟩).COMMAND_SCHEMAS = [⟨⟨"write_file", "d"⟩⟩]
    ∧ dictGet (register_command emptyState "read_file"
        ⟨"commands.file_ops.read_file", 0⟩
        ⟨⟨"write_file", "d"⟩⟩).REGISTERED_COMMANDS "read_file"
      = some ⟨"commands.file_ops.read_file", 0⟩ := by
  constructor <;> rfl

/-- Claim C1, amended: `register_command` performs no validation of
`schema.function.name` against `name`: even when the two differ, it inserts
the function under `name` and appends the mismatched schema to the schema
list. -/
theorem C1_register_no_name_validation (s : RegistryState) (name : String)
    (func : Func) (schema : Schema)
    (_hmismatch : schema.function.name ≠ name) :
    dictGet (register_command s name func schema).REGISTERED_COMMANDS name
        = some func
    ∧ schema ∈ (register_command s name func schema).COMMAND_SCHEMAS := by
  refine ⟨?_, ?_⟩
  · simpa [register_command] using
      dictGet_dictSet_self s.REGISTERED_COMMANDS name func
  · simp [register_command]

/-- Witness for `C1_register_no_name_validation` at a concrete mismatched
registration. -/
theorem C1_register_no_name_validation_witness :
    dictGet (register_command emptyState "read_file"
        ⟨"commands.file_ops.read_file", 0⟩
        ⟨⟨"write_file", "d"⟩⟩).REGISTERED_COMMANDS "read_file"
      = some ⟨"commands.file_ops.read_file", 0⟩
    ∧ (⟨⟨"write_file", "d"⟩⟩ : Schema)
        ∈ (register_command emptyState "read_file"
            ⟨"commands.file_ops.read_file", 0⟩
            ⟨⟨"write_file", "d"⟩⟩).COMMAND_SCHEMAS :=
  C1_register_no_name_validation emptyState "read_file"
    ⟨"commands.file_ops.read_file", 0⟩ ⟨⟨"write_file", "d"⟩⟩ (by decide)

/-- Claim C5: the latest registration wins — after registering `(n, f, sf)`
and then `(n, g, sg)`, looking `n` up in `REGISTERED_COMMANDS` returns `g`
(dictionary assignment on line 34 overwrites). -/
theorem C5_last_registration_wins (s : RegistryState) (n : String)
    (f g : Func) (sf sg : Schema) :
    dictGet (register_command (register_command s n f sf) n g sg).REGISTERED_COMMANDS n
      = some g := by
  simpa [register_command] using
    dictGet_dictSet_self (dictSet s.REGISTERED_COMMANDS n f) n g

/-- Claim C6: `COMMAND_SCHEMAS` lists schemas in exactly the order the
registrations occurred: any sequence of `register_command` calls appends its
schemas, in order, after the existing entries, so no call reorders earlier
ones. -/
theorem C6_schema_list_registration_order (s : RegistryState) (regs : List Reg) :
    (applyRegs s regs).COMMAND_SCHEMAS
      = s.COMMAND_SCHEMAS ++ regs.map (fun r => r.2.2) :=
  applyRegs_schemas regs s

/-- Claim C7: the category bucket a registration lands in is named by the
segment of the function's dotted module path immediately following the
top-level package name (`"misc"` when the path has no such segment), as the
spec words it via `specCategory`. -/
theorem C7_category_from_module_path (s : RegistryState) (n : String)
    (func : Func) (schema : Schema) :
    n ∈ (dictGet (register_command s n func schema).COMMANDS_BY_CATEGORY
          (specCategory func.module)).getD [] := by
  have h := mem_ddAppend_bucket s.COMMANDS_BY_CATEGORY (category_of func.module) n
  simpa [register_command, category_of_eq_specCategory] using h

/- ### Registry consistency (C2) -/

/-- Mutual consistency of the three registry collections at a name `n`: the
number of schemas whose `function.name` is `n` and the number of occurrences
of `n` across category buckets both equal 1 exactly when `n` is in the
function map (and 0 otherwise). -/
def RegistryConsistent (s : RegistryState) : Prop :=
  ∀ n : String,
    schemaCount s n = (if (dictGet s.REGISTERED_COMMANDS n).isSome then 1 else 0)
    ∧ catCount s n = (if (dictGet s.REGISTERED_COMMANDS n).isSome then 1 else 0)

theorem schemaCount_register (s : RegistryState) (name : String) (func : Func)
    (schema : Schema) (n : String) :
    schemaCount (register_command s name func schema) n
      = schemaCount s n + (if schema.function.name = n then 1 else 0) := by
  by_cases h : schema.function.name = n <;>
    simp [schemaCount, register_command, List.filter_append, h]

theorem catCount_register (s : RegistryState) (name : String) (func : Func)
    (schema : Schema) (n : String) :
    catCount (register_command s name func schema) n
      = catCount s n + (if name = n then 1 else 0) := by
  simpa [catCount, register_command] using
    catCount_ddAppend s.COMMANDS_BY_CATEGORY (category_of func.module) name n

theorem register_preserves_consistent (s : RegistryState) (name : String)
    (func : Func) (schema : Schema)
    (hfresh : dictGet s.REGISTERED_COMMANDS name = none)
    (hname : schema.function.name = name)
    (hinv : RegistryConsistent s) :
    RegistryConsistent (register_command s name func schema) := by
  intro n
  have h0 := hinv n
  have hs := schemaCount_register s name func schema n
  have hc := catCount_register s name func schema n
  have hd : dictGet (register_command s name func schema).REGISTERED_COMMANDS n
      = if name == n then some func else dictGet s.REGISTERED_COMMANDS n := by
    simpa [register_command] using dictGet_dictSet s.REGISTERED_COMMANDS name n func
  by_cases h : name = n
  · subst h
    simp [hfresh] at h0
    refine ⟨?_, ?_⟩
    · rw [hs, hname]
      simp [hd, h0.1]
    · rw [hc]
      simp [hd, h0.2]
  · have hdn : dictGet (register_command s name func schema).REGISTERED_COMMANDS n
        = dictGet s.REGISTERED_COMMANDS n := by
      simpa [h] using hd
    refine ⟨?_, ?_⟩
    · rw [hs, hname, hdn]
      simp [h, h0.1]
    · rw [hc, hdn]
      simp [h, h0.2]

theorem emptyState_consistent : RegistryConsistent emptyState := by
  intro n
  simp [schemaCount, catCount, emptyState, dictGet]

theorem applyRegs_consistent (regs : List Reg) (s : RegistryState)
    (hinv : RegistryConsistent s)
    (hnames : ∀ r ∈ regs, r.2.2.function.name = r.1)
    (hfresh : ∀ r ∈ regs, dictGet s.REGISTERED_COMMANDS r.1 = none)
    (hnodup : (regs.map (fun r => r.1)).Nodup) :
    RegistryConsistent (applyRegs s regs) := by
  induction regs generalizing s with
  | nil => simpa [applyRegs] using hinv
  | cons r rest ih =>
      rw [applyRegs_cons]
      simp only [List.map_cons, List.nodup_cons] at hnodup
      apply ih
      · exact register_preserves_consistent s r.1 r.2.1 r.2.2
          (hfresh r (List.mem_cons_self r rest))
          (hnames r (List.mem_cons_self r rest)) hinv
      · intro r2 h2
        exact hnames r2 (List.mem_cons_of_mem r h2)
      · intro r2 h2
        have hne : ¬ (r.1 == r2.1) = true := by
          intro hb
          exact hnodup.1 (by
            have : r.1 = r2.1 := by simpa using hb
            rw [this]
            exact List.mem_map_of_mem (fun x => x.1) h2)
        have := dictGet_dictSet s.REGISTERED_COMMANDS r.1 r2.1 r.2.1
        simp only [register_command]
        rw [this]
        simp only [Bool.not_eq_true] at hne
        rw [hne]
        simp [hfresh r2 (List.mem_cons_of_mem r h2)]
      · exact hnodup.2

/-- Claim C2, counterexample: a single `register_command` call with a schema
whose `function.name` (`"write_file"`) differs from the registered name
(`"read_file"`) yields a state where `"read_file"` is in the function map
but zero schemas in `COMMAND_SCHEMAS` carry `function.name = "read_file"`,
refuting the unconditional mutual-consistency claim. -/
theorem C2_consistency_counterexample :
    (dictGet (register_command emptyState "read_file"
        ⟨"commands.file_ops.read_file", 0⟩
        ⟨⟨"write_file", "d"⟩⟩).REGISTERED_COMMANDS "read_file").isSome = true
    ∧ schemaCount (register_command emptyState "read_file"
        ⟨"commands.file_ops.read_file", 0⟩
        ⟨⟨"write_file", "d"⟩⟩) "read_file" = 0 := by
  constructor <;> rfl

/-- Claim C2, amended: for every sequence of `register_command` calls with
pairwise-distinct names in which each schema's `function.name` equals its
registered name, the resulting collections are mutually consistent: every
name in the function map has exactly one schema carrying that
`function.name` and occurs exactly once across the category buckets. -/
theorem C2_registry_mutual_consistency (regs : List Reg) (n : String)
    (hnames : ∀ r ∈ regs, r.2.2.function.name = r.1)
    (hnodup : (regs.map (fun r => r.1)).Nodup)
    (hmem : (dictGet (applyRegs emptyState regs).REGISTERED_COMMANDS n).isSome
        = true) :
    schemaCount (applyRegs emptyState regs) n = 1
    ∧ catCount (applyRegs emptyState regs) n = 1 := by
  have h := applyRegs_consistent regs emptyState emptyState_consistent hnames
    (fun r _ => rfl) hnodup n
  rw [hmem] at h
  simpa using h

/-- Witness for `C2_registry_mutual_consistency` on a two-command
registration sequence. -/
theorem C2_registry_mutual_consistency_witness :
    schemaCount (applyRegs emptyState
        [("read_file", ⟨"commands.file_ops.read_file", 0⟩, ⟨⟨"read_file", "r"⟩⟩),
         ("write_file", ⟨"commands.file_ops.write_file", 1⟩, ⟨⟨"write_file", "w"⟩⟩)])
      "read_file" = 1
    ∧ catCount (applyRegs emptyState
        [("read_file", ⟨"commands.file_ops.read_file", 0⟩, ⟨⟨"read_file", "r"⟩⟩),
         ("write_file", ⟨"commands.file_ops.write_file", 1⟩, ⟨⟨"write_file", "w"⟩⟩)])
      "read_file" = 1 :=
  C2_registry_mutual_consistency
    [("read_file", ⟨"commands.file_ops.read_file", 0⟩, ⟨⟨"read_file", "r"⟩⟩),
     ("write_file", ⟨"commands.file_ops.write_file", 1⟩, ⟨⟨"write_file", "w"⟩⟩)]
    "read_file" (by decide) (by decide) (by decide)

/- ### Discovery failure semantics (C3) -/

/-- Claim C3, counterexample: with one module whose import raises followed by
one healthy module, `discover_commands` returns the propagated exception —
it aborts instead of logging, skipping, and registering the remaining
module (there is no `try`/`except` around the import on line 73). -/
theorem C3_discovery_abort_counterexample :
    discover_commands ""
      [⟨"web_ops", "social_scrape", .error "ModuleNotFoundError"⟩,
       ⟨"file_ops", "read_file",
         .ok [("read_file", ⟨"commands.file_ops.read_file", 0⟩,
               ⟨⟨"read_file", "r"⟩⟩)]⟩]
      emptyState = .error "ModuleNotFoundError" := rfl

/-- Claim C3, amended: when a command module that is not skipped by the CI
GUI exclusion raises on import, `discover_commands` propagates that
exception immediately: the remaining modules are never imported and nothing
further is registered. -/
theorem C3_import_error_propagates (ci : String) (m : CommandModule)
    (rest : List CommandModule) (s : RegistryState) (e : String)
    (himport : m.importResult = .error e)
    (hskip : ((strLower ci == "true")
        && gui_commands.contains (m.category, m.name)) = false) :
    discover_commands ci (m :: rest) s = .error e := by
  show discover_loop (strLower ci == "true") (m :: rest) s = .error e
  rw [discover_loop, hskip]
  simp [himport]

/-- Witness for `C3_import_error_propagates` on a concrete failing module. -/
theorem C3_import_error_propagates_witness :
    discover_commands "" [⟨"web_ops", "web_scrape", .error "boom"⟩] emptyState
      = .error "boom" :=
  C3_import_error_propagates "" ⟨"web_ops", "web_scrape", .error "boom"⟩ []
    emptyState "boom" rfl (by decide)

/- ### Headless discovery (C4) -/

/-- Whether importing module `m` performs a registration under the name
`n`. -/
def moduleRegisters (m : CommandModule) (n : String) : Bool :=
  match m.importResult with
  | .ok regs => regs.any (fun r => r.1 == n)
  | .error _ => false

theorem dictGet_applyRegs_of_no_reg (regs : List Reg) :
    ∀ (s : RegistryState) (n : String),
    (∀ r ∈ regs, (r.1 == n) = false) →
    dictGet (applyRegs s regs).REGISTERED_COMMANDS n
      = dictGet s.REGISTERED_COMMANDS n := by
  induction regs with
  | nil => intro s n _; rfl
  | cons r rest ih =>
      intro s n h
      rw [applyRegs_cons,
        ih _ n (fun r2 h2 => h r2 (List.mem_cons_of_mem r h2))]
      simp only [register_command]
      rw [dictGet_dictSet, h r (List.mem_cons_self r rest)]
      simp

theorem dictGet_applyRegs_isSome (regs : List Reg) :
    ∀ (s : RegistryState) (n : String),
    (dictGet s.REGISTERED_COMMANDS n).isSome = true →
    (dictGet (applyRegs s regs).REGISTERED_COMMANDS n).isSome = true := by
  induction regs with
  | nil => intro s n h; exact h
  | cons r rest ih =>
      intro s n h
      rw [applyRegs_cons]
      apply ih
      simp only [register_command]
      rw [dictGet_dictSet]
      by_cases hb : (r.1 == n) = true
      · rw [hb]
        simp
      · simp only [Bool.not_eq_true] at hb
        rw [hb]
        simpa using h

theorem applyRegs_isSome_of_reg (regs : List Reg) :
    ∀ (s : RegistryState) (n : String),
    regs.any (fun r => r.1 == n) = true →
    (dictGet (applyRegs s regs).REGISTERED_COMMANDS n).isSome = true := by
  induction regs with
  | nil => intro s n h; cases h
  | cons r rest ih =>
      intro s n h
      rw [applyRegs_cons]
      rcases (by simpa using h :
          (r.1 == n) = true ∨ rest.any (fun r => r.1 == n) = true) with hh | hh
      · apply dictGet_applyRegs_isSome
        simp only [register_command]
        rw [dictGet_dictSet, hh]
        simp
      · exact ih _ n hh

theorem discover_loop_isSome (b : Bool) (mods : List CommandModule) :
    ∀ (s s2 : RegistryState) (n : String),
    (dictGet s.REGISTERED_COMMANDS n).isSome = true →
    discover_loop b mods s = .ok s2 →
    (dictGet s2.REGISTERED_COMMANDS n).isSome = true := by
  induction mods with
  | nil =>
      intro s s2 n h hrun
      cases hrun
      exact h
  | cons m rest ih =>
      intro s s2 n h hrun
      rw [discover_loop] at hrun
      cases hcond : (b && gui_commands.contains (m.category, m.name)) with
      | true =>
          rw [hcond] at hrun
          simp only [if_true] at hrun
          exact ih s s2 n h hrun
      | false =>
          rw [hcond] at hrun
          simp only [Bool.false_eq_true, if_false] at hrun
          cases him : m.importResult with
          | error e =>
              rw [him] at hrun
              cases hrun
          | ok regs =>
              rw [him] at hrun
              exact ih _ s2 n (dictGet_applyRegs_isSome regs s n h) hrun

theorem discover_loop_none (mods : List CommandModule) :
    ∀ (s s2 : RegistryState) (n : String),
    dictGet s.REGISTERED_COMMANDS n = none →
    (∀ m ∈ mods, gui_commands.contains (m.category, m.name) = false →
        moduleRegisters m n = false) →
    discover_loop true mods s = .ok s2 →
    dictGet s2.REGISTERED_COMMANDS n = none := by
  induction mods with
  | nil =>
      intro s s2 n h _ hrun
      cases hrun
      exact h
  | cons m rest ih =>
      intro s s2 n h hmods hrun
      rw [discover_loop] at hrun
      cases hcond : gui_commands.contains (m.category, m.name) with
      | true =>
          rw [hcond] at hrun
          simp only [Bool.and_true, if_true] at hrun
          exact ih s s2 n h
            (fun m2 h2 => hmods m2 (List.mem_cons_of_mem m h2)) hrun
      | false =>
          rw [hcond] at hrun
          simp only [Bool.and_false, Bool.false_eq_true, if_false] at hrun
          have hreg := hmods m (List.mem_cons_self m rest) hcond
          cases him : m.importResult with
          | error e =>
              rw [him] at hrun
              cases hrun
          | ok regs =>
              rw [him] at hrun
              simp only [moduleRegisters, him] at hreg
              have hnone : ∀ r ∈ regs, (r.1 == n) = false := by
                intro r hr
                cases hb : (r.1 == n) with
                | false => rfl
                | true =>
                    exfalso
                    have hany : regs.any (fun r => r.1 == n) = true :=
                      List.any_eq_true.mpr ⟨r, hr, hb⟩
                    rw [hany] at hreg
                    exact absurd hreg (by decide)
              have := dictGet_applyRegs_of_no_reg regs s n hnone
              exact ih _ s2 n (this.trans h)
                (fun m2 h2 => hmods m2 (List.mem_cons_of_mem m h2)) hrun

theorem discover_loop_false_registers (mods : List CommandModule) :
    ∀ (s s2 : RegistryState) (n : String),
    discover_loop false mods s = .ok s2 →
    (∃ m ∈ mods, moduleRegisters m n = true) →
    (dictGet s2.REGISTERED_COMMANDS n).isSome = true := by
  induction mods with
  | nil =>
      intro s s2 n _ hmem
      simp at hmem
  | cons m rest ih =>
      intro s s2 n hrun hmem
      rw [discover_loop] at hrun
      simp only [Bool.false_and, Bool.false_eq_true, if_false] at hrun
      cases him : m.importResult with
      | error e =>
          rw [him] at hrun
          cases hrun
      | ok regs =>
          rw [him] at hrun
          rcases hmem with ⟨m2, hm2, hreg2⟩
          rcases List.mem_cons.mp hm2 with hEq | hTail
          · subst hEq
            rw [moduleRegisters, him] at hreg2
            exact discover_loop_isSome false rest _ s2 n
              (applyRegs_isSome_of_reg regs s n hreg2) hrun
          · exact ih _ s2 n hrun ⟨m2, hTail, hreg2⟩

/-- Claim C4: with the CI environment flag set to `"true"`, discovery skips
the `("system_ops", "screenshot")` module, so — provided only that module
registers the name `"screenshot"` — the function map does not contain
`"screenshot"` afterward; with the flag unset (empty string), the module is
imported and `"screenshot"` is present. -/
theorem C4_headless_excludes_gui_command (mods : List CommandModule)
    (s1 s2 : RegistryState)
    (honly : ∀ m ∈ mods, moduleRegisters m "screenshot" = true →
        m.category = "system_ops" ∧ m.name = "screenshot")
    (hon : discover_commands "true" mods emptyState = .ok s1)
    (hoff : discover_commands "" mods emptyState = .ok s2)
    (hmem : ∃ m ∈ mods, m.category = "system_ops" ∧ m.name = "screenshot"
        ∧ moduleRegisters m "screenshot" = true) :
    dictGet s1.REGISTERED_COMMANDS "screenshot" = none
    ∧ (dictGet s2.REGISTERED_COMMANDS "screenshot").isSome = true := by
  have htrue : (strLower "true" == "true") = true := by decide
  have hfalse : (strLower "" == "true") = false := by decide
  simp only [discover_commands] at hon hoff
  rw [htrue] at hon
  rw [hfalse] at hoff
  constructor
  · apply discover_loop_none mods emptyState s1 "screenshot" rfl _ hon
    intro m hm hcont
    cases hreg : moduleRegisters m "screenshot" with
    | false => rfl
    | true =>
        exfalso
        obtain ⟨hc, hn⟩ := honly m hm hreg
        rw [hc, hn] at hcont
        exact absurd hcont (by decide)
  · apply discover_loop_false_registers mods emptyState s2 "screenshot" hoff
    rcases hmem with ⟨m, hm, _, _, hreg⟩
    exact ⟨m, hm, hreg⟩

/-- A concrete screenshot command registration for the C4 witness. -/
def screenshotReg : Reg :=
  ("screenshot", ⟨"commands.system_ops.screenshot", 2⟩,
    ⟨⟨"screenshot", "Take a screenshot"⟩⟩)

/-- A concrete read_file command registration for the C4 witness. -/
def readFileReg : Reg :=
  ("read_file", ⟨"commands.file_ops.read_file", 0⟩, ⟨⟨"read_file", "r"⟩⟩)

/-- A concrete module list for the C4 witness: the GUI screenshot module
followed by an ordinary file_ops module. -/
def modsW : List CommandModule :=
  [⟨"system_ops", "screenshot", .ok [screenshotReg]⟩,
   ⟨"file_ops", "read_file", .ok [readFileReg]⟩]

/-- Witness for `C4_headless_excludes_gui_command` on `modsW`. -/
theorem C4_headless_excludes_gui_command_witness :
    dictGet (applyRegs emptyState [readFileReg]).REGISTERED_COMMANDS
        "screenshot" = none
    ∧ (dictGet (applyRegs (applyRegs emptyState [screenshotReg])
        [readFileReg]).REGISTERED_COMMANDS "screenshot").isSome = true :=
  C4_headless_excludes_gui_command modsW
    (applyRegs emptyState [readFileReg])
    (applyRegs (applyRegs emptyState [screenshotReg]) [readFileReg])
    (by decide) rfl rfl (by decide)

/- ### Presentation never raises and is read-only (C8) -/

theorem dictGet_isSome_of_mem_keys (d : List (String × List String)) (k : String)
    (h : k ∈ d.map (fun p => p.1)) : (dictGet d k).isSome = true := by
  induction d with
  | nil => simp at h
  | cons p rest ih =>
      obtain ⟨k0, v0⟩ := p
      by_cases hb : (k0 == k) = true
      · simp [dictGet, hb]
      · have hmem : k ∈ rest.map (fun p => p.1) := by
          simp only [List.map_cons, List.mem_cons] at h
          rcases h with h | h
          · exact absurd (by simp [h] : (k0 == k) = true) hb
          · exact h
        simpa [dictGet, hb] using ih hmem

theorem mem_insertStr (a b : String) (l : List String) :
    b ∈ insertStr a l ↔ b = a ∨ b ∈ l := by
  induction l with
  | nil => simp [insertStr]
  | cons c rest ih =>
      by_cases h : a ≤ c
      · simp [insertStr, h]
      · simp [insertStr, h, ih]
        tauto

theorem mem_sortStrings (b : String) (l : List String) :
    b ∈ sortStrings l ↔ b ∈ l := by
  induction l with
  | nil => simp [sortStrings]
  | cons a rest ih => simp [sortStrings, mem_insertStr, ih]

theorem ddGetItem_of_isSome (d : List (String × List String)) (k : String)
    (h : (dictGet d k).isSome = true) : (ddGetItem d k).2 = d := by
  cases hd : dictGet d k with
  | none => simp [hd] at h
  | some l => simp [ddGetItem, hd]

theorem printStep_foldl_dict (schemas : List Schema) (max_length : Nat)
    (cats : List String) :
    ∀ (acc : String × List (String × List String)),
    (∀ c ∈ cats, (dictGet acc.2 c).isSome = true) →
    (cats.foldl (printStep schemas max_length) acc).2 = acc.2 := by
  induction cats with
  | nil => intro acc _; rfl
  | cons c rest ih =>
      intro acc h
      rw [List.foldl_cons]
      have hc := h c (List.mem_cons_self c rest)
      have hstep : (printStep schemas max_length acc c).2 = acc.2 := by
        simp [printStep, ddGetItem_of_isSome acc.2 c hc]
      rw [ih (printStep schemas max_length acc c)
        (by rw [hstep]; exact fun c2 hc2 => h c2 (List.mem_cons_of_mem c hc2)),
        hstep]

theorem ddAppend_buckets_ne_nil (d : List (String × List String)) (k v : String)
    (h : ∀ p ∈ d, p.2 ≠ []) :
    ∀ p ∈ ddAppend d k v, p.2 ≠ [] := by
  induction d with
  | nil =>
      intro p hp
      simp only [ddAppend, List.mem_singleton] at hp
      simp [hp]
  | cons q rest ih =>
      obtain ⟨k0, l0⟩ := q
      intro p hp
      by_cases hb : (k0 == k) = true
      · simp only [ddAppend, hb, if_true, List.mem_cons] at hp
        rcases hp with hp | hp
        · simp [hp]
        · exact h p (List.mem_cons_of_mem _ hp)
      · simp only [ddAppend, hb, if_false] at hp
        rcases List.mem_cons.mp hp with hp | hp
        · exact h p (by rw [hp]; exact List.mem_cons_self _ _)
        · exact ih (fun q2 hq2 => h q2 (List.mem_cons_of_mem _ hq2)) p hp

theorem applyRegs_buckets_ne_nil (regs : List Reg) :
    ∀ (s : RegistryState),
    (∀ p ∈ s.COMMANDS_BY_CATEGORY, p.2 ≠ []) →
    ∀ p ∈ (applyRegs s regs).COMMANDS_BY_CATEGORY, p.2 ≠ [] := by
  induction regs with
  | nil => intro s h; exact h
  | cons r rest ih =>
      intro s h
      rw [applyRegs_cons]
      exact ih _ (ddAppend_buckets_ne_nil _ _ _ h)

theorem flatten_buckets_ne_nil (d : List (String × List String))
    (hne : d ≠ []) (h : ∀ p ∈ d, p.2 ≠ []) :
    (d.map (fun p => p.2)).flatten ≠ [] := by
  cases d with
  | nil => exact absurd rfl hne
  | cons p rest =>
      simp only [List.map_cons, List.flatten_cons]
      intro hz
      exact h p (List.mem_cons_self p rest) (List.append_eq_nil.mp hz).1

theorem max?_isSome_of_ne_nil (l : List Nat) (h : l ≠ []) :
    l.max?.isSome = true := by
  cases l with
  | nil => exact absurd rfl h
  | cons a as => simp [List.max?]

/-- Claim C8: `print_commands` never raises on a registry produced by any
sequence of registrations (the modelled `ValueError` branch of `max()` is
unreachable because every category bucket is nonempty), it leaves
`COMMANDS_BY_CATEGORY` unchanged, and on the empty registry it prints the
"No commands registered yet." message. -/
theorem C8_print_commands_never_raises :
    (∀ regs : List Reg,
      ((print_commands (applyRegs emptyState regs)).1).isSome = true
        ∧ (print_commands (applyRegs emptyState regs)).2
            = (applyRegs emptyState regs).COMMANDS_BY_CATEGORY)
    ∧ print_commands emptyState
        = (some ("\nAvailable Commands:\n" ++ repeatChar '=' 50
            ++ "\n" ++ "No commands registered yet.\n"), []) := by
  constructor
  · intro regs
    by_cases hemp : (applyRegs emptyState regs).COMMANDS_BY_CATEGORY.isEmpty = true
    · constructor <;> simp [print_commands, hemp]
    · have hne : (applyRegs emptyState regs).COMMANDS_BY_CATEGORY ≠ [] := by
        intro hz
        rw [hz] at hemp
        exact hemp rfl
      have hbuckets := applyRegs_buckets_ne_nil regs emptyState
        (by intro p hp; simp [emptyState] at hp)
      have hflat := flatten_buckets_ne_nil _ hne hbuckets
      have hmax : ((((applyRegs emptyState regs).COMMANDS_BY_CATEGORY.map
          (fun p => p.2)).flatten).map String.length).max?.isSome = true := by
        apply max?_isSome_of_ne_nil
        cases hfl : ((applyRegs emptyState regs).COMMANDS_BY_CATEGORY.map
            (fun p => p.2)).flatten with
        | nil => exact absurd hfl hflat
        | cons a l => simp
      obtain ⟨ml, hml⟩ := Option.isSome_iff_exists.mp hmax
      have hdict : ∀ c ∈ sortStrings ((applyRegs emptyState regs).COMMANDS_BY_CATEGORY.map
          (fun p => p.1)),
          (dictGet (applyRegs emptyState regs).COMMANDS_BY_CATEGORY c).isSome = true := by
        intro c hc
        exact dictGet_isSome_of_mem_keys _ c ((mem_sortStrings c _).mp hc)
      simp only [print_commands, hemp, if_false, hml]
      constructor
      · simp
      · simpa using printStep_foldl_dict
          (applyRegs emptyState regs).COMMAND_SCHEMAS ml
          (sortStrings ((applyRegs emptyState regs).COMMANDS_BY_CATEGORY.map
            (fun p => p.1)))
          ("", (applyRegs emptyState regs).COMMANDS_BY_CATEGORY) hdict
  · rfl

/- ### read_file error handling (C9) and allowlist bypass (C10) -/

/-- Claim C9: `read_file` always returns a string: its result is one of the
file's contents, the `"Error: File not found: "` message (exactly this, with
the path's basename, whenever the path does not exist), the security-error
string, or the stringified caught read exception — expected failures never
escape as exceptions. -/
theorem C9_read_file_returns_error_strings (env : FSEnv) (file_path : String) :
    (env.pathExists file_path = false →
      read_file env file_path = "Error: File not found: " ++ basename file_path)
    ∧ (read_file env file_path
          = "Error: File not found: " ++ basename file_path
      ∨ read_file env file_path
          = "Security Error: Cannot access files outside the output directory"
      ∨ (∃ e, env.readText file_path = Except.error e
          ∧ read_file env file_path = "Error reading file: " ++ e)
      ∨ (∃ c, env.readText file_path = Except.ok c
          ∧ read_file env file_path = c)) := by
  simp only [read_file]
  split
  next hex => exact ⟨fun _ => rfl, Or.inl rfl⟩
  next hex =>
    constructor
    · intro h
      exact absurd h hex
    · split
      next hsec => exact Or.inr (Or.inl rfl)
      next hsec =>
        cases hr : env.readText file_path with
        | ok c => exact Or.inr (Or.inr (Or.inr ⟨c, rfl, rfl⟩))
        | error e => exact Or.inr (Or.inr (Or.inl ⟨e, rfl, rfl⟩))

/-- A filesystem environment in which no path exists, for the C9 witness. -/
def envMissing : FSEnv :=
  { pathExists := fun _ => false
    abspath := fun p => p
    readText := fun _ => .error "unreadable"
    OUTPUT_DIR := "output" }

/-- Witness for `C9_read_file_returns_error_strings`: a nonexistent path
yields the not-found message built from the basename. -/
theorem C9_read_file_returns_error_strings_witness :
    read_file envMissing "output/missing.txt"
      = "Error: File not found: missing.txt" :=
  ((C9_read_file_returns_error_strings envMissing "output/missing.txt").1
    rfl).trans (by decide)

/-- Claim C10: for an existing path whose absolute path contains the substring
`"clix"` or `".git"`, the allowlist check (line 50) marks the path as within
the output directory, so `read_file` skips the `"Security Error"` branch and
attempts the read — returning the contents or the stringified read error —
regardless of whether the path lies under `OUTPUT_DIR`. -/
theorem C10_allowlist_bypasses_security_check (env : FSEnv) (file_path : String)
    (hexists : env.pathExists file_path = true)
    (hallow : strContains (env.abspath file_path) "clix" = true
      ∨ strContains (env.abspath file_path) ".git" = true) :
    read_file env file_path
      = match env.readText file_path with
        | .ok content => content
        | .error e => "Error reading file: " ++ e := by
  simp only [read_file]
  rw [if_neg (by simp [hexists])]
  rw [if_neg ?hcond]
  case hcond =>
    intro hfalse
    rcases hallow with h | h <;> simp [h] at hfalse

/-- A filesystem environment for the C10 witness: every path exists, its
absolute path lies under `/home/user/clix/` — outside the output directory —
and reading succeeds. -/
def envClix : FSEnv :=
  { pathExists := fun _ => true
    abspath := fun p => "/home/user/clix/" ++ p
    readText := fun _ => .ok "file contents"
    OUTPUT_DIR := "output" }

/-- Witness for `C10_allowlist_bypasses_security_check`: a path outside the
output directory (its absolute path does not start with the output
directory's) containing `"clix"` is read anyway. -/
theorem C10_allowlist_bypasses_security_check_witness :
    read_file envClix "repo/notes.txt" = "file contents"
    ∧ strStartsWith (envClix.abspath "repo/notes.txt")
        (envClix.abspath envClix.OUTPUT_DIR) = false :=
  ⟨C10_allowlist_bypasses_security_check envClix "repo/notes.txt" rfl
      (Or.inl (by decide)),
    by decide⟩

end SimpleAgent
